import Mathlib

/-!
Verification development for the git-repo-analyser Flask service
(`src/app.py`, the basic variant, and `src/advanced_app.py`, the advanced
variant).  The Python functions are shallowly embedded as executable Lean
definitions; external effects (filesystem, subprocesses, the Copilot
engine) are modelled by explicit environment records, and the asynchronous
event stream by an explicit list of events folded through the registered
handler.
-/

set_option maxRecDepth 4000
set_option linter.unusedVariables false

/-! ## URL parser (`parse_github_url`, identical in both variants)

The Python function strips whitespace and then tries two regular
expressions in order:
  1. `re.search(r'github\.com/([^/]+)/([^/]+?)(?:\.git)?/?$', url)`
  2. `re.search(r'^([^/]+)/([^/]+)$', url)`
returning `(m.group(1), m.group(2))` for the first match, else
`(None, None)`.  The embedding below implements the exact matching
semantics of those two patterns over `List Char`:
  * pattern 1 searches left to right for an occurrence of the literal
    `github.com/`; after it, group 1 is the maximal nonempty run of
    non-`/` characters (it must be followed by `/`), and the rest of the
    string must be a nonempty run of non-`/` characters optionally
    followed by a final `/`; the lazy group 2 together with the greedy
    optional `(?:\.git)?` strips exactly one `.git` suffix from that run
    when the remainder stays nonempty;
  * pattern 2 matches the whole string as `owner/name` with exactly one
    `/`, both sides nonempty; nothing is stripped.
  * Python's `$` can also match before a final newline, but `str.strip()`
    has already removed any trailing newline, so end-of-string is exact.
-/

/-- The whitespace characters removed by Python's `str.strip()`
(ASCII subset; the claims only involve ASCII input). -/
def isPySpace (c : Char) : Bool :=
  c == ' ' || c == '\t' || c == '\n' || c == '\r' || c == '\x0b' || c == '\x0c'

/-- Python `str.strip()`. -/
def pyStrip (cs : List Char) : List Char :=
  ((cs.dropWhile isPySpace).reverse.dropWhile isPySpace).reverse

/-- `[^/]` character class. -/
def notSlash (c : Char) : Bool := c != '/'

/-- `leadEq p l` is true iff `p` is a prefix of `l` (literal match of a
regex at the current position). -/
def leadEq : List Char → List Char → Bool
  | [], _ => true
  | _ :: _, [] => false
  | p :: ps, c :: cs => p == c && leadEq ps cs

/-- Naive substring search: does `p` occur contiguously inside `s`?
(Used both for Python's `in` operator and to reason about `re.search`.) -/
def listContains (p : List Char) : List Char → Bool
  | [] => leadEq p []
  | c :: cs => leadEq p (c :: cs) || listContains p cs

/-- Python `pat in s` / substring containment on strings. -/
def strContains (s pat : String) : Bool := listContains pat.data s.data

/-- The effect of the lazy group `([^/]+?)` followed by the greedy
`(?:\.git)?`: the captured group is the run minus one `.git` suffix,
provided what remains is nonempty. -/
def stripDotGit (w : List Char) : List Char :=
  if 4 < w.length ∧ w.drop (w.length - 4) = ".git".data then
    w.take (w.length - 4)
  else w

/-- Matching of `([^/]+?)(?:\.git)?/?$` against the text `t` that follows
`owner/` in pattern 1: `t` must be a nonempty run of non-`/` characters
optionally followed by one final `/`; the capture strips one `.git`. -/
def parseTail (t : List Char) : Option (List Char) :=
  let w := t.takeWhile notSlash
  let rest := t.dropWhile notSlash
  if w = [] then none
  else
    match rest with
    | [] => some (stripDotGit w)
    | ['/'] => some (stripDotGit w)
    | _ => none

/-- Matching of `([^/]+)/([^/]+?)(?:\.git)?/?$` against the text that
follows an occurrence of `github.com/`. -/
def ownerTail (cs : List Char) : Option (List Char × List Char) :=
  let o := cs.takeWhile notSlash
  let rest := cs.dropWhile notSlash
  if o = [] then none
  else
    match rest with
    | '/' :: t =>
      match parseTail t with
      | some n => some (o, n)
      | none => none
    | _ => none

/-- The literal part of pattern 1. -/
def ghMarker : List Char := "github.com/".data

/-- `re.search` for pattern 1: try every start position left to right;
the match (if any) must begin with the literal `github.com/`. -/
def searchGithub : List Char → Option (List Char × List Char)
  | [] => none
  | c :: cs =>
    match (if leadEq ghMarker (c :: cs) then ownerTail ((c :: cs).drop 11) else none) with
    | some r => some r
    | none => searchGithub cs

/-- `re.search` for the anchored pattern 2, `^([^/]+)/([^/]+)$`:
the whole string is `a/b` with exactly one `/`, both parts nonempty. -/
def bareMatch (cs : List Char) : Option (List Char × List Char) :=
  let a := cs.takeWhile notSlash
  let rest := cs.dropWhile notSlash
  if a = [] then none
  else
    match rest with
    | '/' :: b => if b ≠ [] ∧ b.all notSlash then some (a, b) else none
    | _ => none

/-- `parse_github_url` from `src/app.py` lines 22-43 and
`src/advanced_app.py` lines 67-88 (the two copies are identical).
Returns the pair `(owner, repo)` of the first matching pattern, or
`(None, None)`. -/
def parse_github_url (url : String) : Option String × Option String :=
  let cs := pyStrip url.data
  match searchGithub cs with
  | some (o, n) => (some ⟨o⟩, some ⟨n⟩)
  | none =>
    match bareMatch cs with
    | some (a, b) => (some ⟨a⟩, some ⟨b⟩)
    | none => (none, none)


/-! ## Session events and the registered event handler

`handle_event` is the closure registered with `session.on(handle_event)`
in both variants (`src/app.py` lines 71-96, `src/advanced_app.py` lines
202-248).  Besides `print` diagnostics, the two copies perform the same
state mutations, so one embedding serves both.  The mutable closure state
(`done`, `response_content`, `events_log`) becomes an explicit record and
the asynchronous stream of callbacks becomes a fold over the list of
received events. -/

/-- One event delivered by the Copilot SDK, classified by
`event.type.value`.  Payload fields mirror the attributes the handler
reads; `getattr(..., default=None)` accesses become `Option`.
`other` covers event types matching none of the `elif` branches. -/
inductive Ev where
  | assistantMessage (content : String)
  | messageDelta (delta_content : Option String)
  | toolStart (tool_name : String) (tool_call_id : Option String) (arguments : Option String)
  | toolComplete (tool_call_id : String) (result : Option String)
  | sessionIdle
  | other (tag : String)

/-- One record appended to `events_log` by the handler. -/
inductive LogRecord where
  | delta (content : String)
  | toolStart (tool_name : String) (tool_call_id : Option String)
  | toolComplete (tool_call_id : String) (result : Option String)
deriving DecidableEq

/-- The handler closure's captured mutable state: the `asyncio.Event`
value `done`, and the two accumulator lists. -/
structure HState where
  done : Bool
  response_content : List String
  events_log : List LogRecord
deriving DecidableEq

/-- State before any event is received (`done = asyncio.Event()` unset,
both lists empty). -/
def initHState : HState := ⟨false, [], []⟩

/-- `handle_event` from both variants.  `asyncio.Event.set()` is
idempotent: it just makes the value true.  `delta_content or ""` maps
`None` to `""`, and only nonempty deltas are logged. -/
def handle_event (st : HState) (e : Ev) : HState :=
  match e with
  | .assistantMessage content =>
    { st with response_content := st.response_content ++ [content] }
  | .messageDelta dc =>
    let delta := dc.getD ""
    if delta ≠ "" then
      { st with events_log := st.events_log ++ [LogRecord.delta delta] }
    else st
  | .toolStart tool_name tool_call_id _arguments =>
    { st with events_log := st.events_log ++ [LogRecord.toolStart tool_name tool_call_id] }
  | .toolComplete tool_call_id result =>
    { st with events_log := st.events_log ++ [LogRecord.toolComplete tool_call_id result] }
  | .sessionIdle => { st with done := true }
  | .other _ => st

/-- The handler applied to each received event in arrival order. -/
def processEvents (st : HState) (es : List Ev) : HState :=
  es.foldl handle_event st

/-- Is an event the terminal `session.idle` event? -/
def isIdle : Ev → Bool
  | .sessionIdle => true
  | _ => false

/-- The final-message fragment carried by an event, if any
(the `event.data.content` appended to `response_content`). -/
def msgOf : Ev → Option String
  | .assistantMessage content => some content
  | _ => none

/-- The log record an event gives rise to, if any: nonempty deltas and
tool start/complete events are logged; final messages, empty deltas,
idle events and unknown kinds are not. -/
def logOf : Ev → Option LogRecord
  | .messageDelta dc => if dc.getD "" ≠ "" then some (LogRecord.delta (dc.getD "")) else none
  | .toolStart tool_name tool_call_id _ => some (LogRecord.toolStart tool_name tool_call_id)
  | .toolComplete tool_call_id result => some (LogRecord.toolComplete tool_call_id result)
  | _ => none

/-- Number of `false → true` transitions of the completion signal while
the handler consumes the event list (the observable state changes of the
`asyncio.Event`; `set()` on an already-set event changes nothing). -/
def doneFlips (st : HState) : List Ev → Nat
  | [] => 0
  | e :: es =>
    let st2 := handle_event st e
    (if st.done = false ∧ st2.done = true then 1 else 0) + doneFlips st2 es

/-- The result aggregation from `analyze_github_repo` in both variants:
`"\n".join(response_content) if response_content else "No response received."`. -/
def buildResponse (rc : List String) : String :=
  if rc = [] then "No response received." else String.intercalate "\n" rc


/-! ## Workspace reaper (`safe_rmtree`, `src/advanced_app.py` lines 37-64)

The filesystem state relevant to one call is whether the target path
exists and whether it contains a `.git` subdirectory.  The two operations
that can raise inside the `try` are the `git gc` subprocess (which raises
`TimeoutExpired` on its 10-second timeout; a nonzero exit code does not
raise because `check=True` is not passed) and `shutil.rmtree`.  Their
outcomes are external, so they are supplied by a per-attempt schedule.
A raising `rmtree` is modelled as leaving the directory in place; the
claims under verification do not depend on partially-deleted states. -/

/-- Existence of the workspace directory and of `path/.git` inside it. -/
structure DirSt where
  pExists : Bool
  gitExists : Bool
deriving DecidableEq

/-- Per-attempt outcome schedule for the two operations that can raise. -/
structure RmEnv where
  gcRaises : Nat → Bool
  rmRaises : Nat → Bool

/-- The body of one iteration of the `for attempt in range(retries)` loop,
up to `return True`: if the path exists, maybe run `git gc` (only when
`path/.git` exists), then `shutil.rmtree`; `.error` is a raised exception,
`.ok` carries the filesystem state at `return True`. -/
def rmAttempt (env : RmEnv) (k : Nat) (st : DirSt) : Except Unit DirSt :=
  if st.pExists then
    if st.gitExists && env.gcRaises k then Except.error ()
    else if env.rmRaises k then Except.error ()
    else Except.ok ⟨false, false⟩
  else Except.ok st

/-- Observable outcome of a `safe_rmtree` call: the returned boolean, the
filesystem state afterwards, the number of loop iterations executed, and
the number of `time.sleep(1)` calls (each sleeping one time unit). -/
structure RmOut where
  ok : Bool
  st : DirSt
  attempts : Nat
  sleeps : Nat
deriving DecidableEq

/-- The retry loop: each remaining attempt index is tried in order; an
exception is caught (`except Exception`), followed by `time.sleep(1)`
when `attempt < retries - 1`; exhausting the loop returns `False`. -/
def rmLoop (env : RmEnv) (retries : Nat) : List Nat → DirSt → RmOut
  | [], st => ⟨false, st, 0, 0⟩
  | k :: ks, st =>
    match rmAttempt env k st with
    | Except.ok st2 => ⟨true, st2, 1, 0⟩
    | Except.error _ =>
      let r := rmLoop env retries ks st
      ⟨r.ok, r.st, r.attempts + 1, r.sleeps + (if k < retries - 1 then 1 else 0)⟩

/-- `safe_rmtree(path)` with the default `retries = 3`
(`src/advanced_app.py` lines 37-64; both call sites use the default). -/
def safe_rmtree (env : RmEnv) (st : DirSt) : RmOut :=
  rmLoop env 3 [0, 1, 2] st

/-! ## Repository acquirer (`clone_repo`, `src/advanced_app.py` lines 91-149)

External effects (the pre-existing directory, the `git clone` subprocess
outcome and its captured stderr) are supplied by an environment.  The
absolute prefix of `TEMP_REPOS_DIR` (derived from `__file__` at runtime)
is irrelevant to the claims and is fixed to the directory name. -/

/-- Python `repo[:20]` (slicing by characters). -/
def strTake (k : Nat) (s : String) : String := ⟨s.data.take k⟩

/-- Python `str.lower()` (ASCII; the searched pattern `checkout failed`
is ASCII). -/
def lowerStr (s : String) : String := ⟨s.data.map Char.toLower⟩

/-- Base directory for cloned repos (`src/advanced_app.py` line 28). -/
def TEMP_REPOS_DIR : String := "temp_repos"

/-- External outcome of one `clone_repo` call. -/
structure CloneEnv where
  preExisting : Bool
  existsAfter : Bool
  stderr : String

/-- What a successful `clone_repo` call did and returned. -/
structure CloneOut where
  path : String
  restoreAttempted : Bool
  preRemoved : Bool
deriving DecidableEq

/-- `clone_repo(owner, repo)`: ensure `TEMP_REPOS_DIR` exists, compute
`repo_path` from the truncated repo name, remove a pre-existing directory
via `safe_rmtree` (result ignored), run the shallow clone, then:
raise iff the target directory does not exist afterwards (the error
carries the captured stderr); otherwise, when the stderr reports a
checkout failure, attempt the best-effort `git restore` before returning
the path. -/
def clone_repo (env : CloneEnv) (owner repo : String) : Except String CloneOut :=
  let repo_path := TEMP_REPOS_DIR ++ "/" ++ strTake 20 repo
  let preRemoved := env.preExisting
  if !env.existsAfter then
    Except.error ("Failed to clone repository: " ++ env.stderr)
  else if strContains (lowerStr env.stderr) "checkout failed" then
    Except.ok ⟨repo_path, true, preRemoved⟩
  else
    Except.ok ⟨repo_path, false, preRemoved⟩


/-! ## Session orchestrator teardown traces

The slice of `analyze_github_repo` that runs after
`session = await client.create_session(...)` and `session.on(handle_event)`:

* basic variant (`src/app.py` lines 162-165): straight-line
  `await session.send(...)`, `await done.wait()`, `await session.destroy()`,
  `await client.stop()` with no `try`/`finally`;
* advanced variant (`src/advanced_app.py` lines 346-353):
  `try: send; wait` with `finally: destroy; stop; cleanup_repo(repo_path)`.

`send` and `wait` may raise (engine failure or cancellation); the
environment says whether they do.  The result is the ordered list of
performed actions and whether an exception propagates to the caller. -/

/-- Actions observable in the teardown-relevant slice.  `cleanupRepo` is
the `cleanup_repo(repo_path)` call, which invokes the workspace reaper. -/
inductive Act where
  | send
  | waitDone
  | destroySession
  | stopClient
  | cleanupRepo
deriving DecidableEq

/-- Whether `await session.send(...)` and `await done.wait()` raise. -/
structure OrcEnv where
  sendRaises : Bool
  waitRaises : Bool

/-- The basic variant's post-session-creation slice: no scope guard, so a
raise in `send` or `wait` skips everything after it.  Returns the action
trace and whether an exception propagates. -/
def appOrchestrate (env : OrcEnv) : List Act × Bool :=
  if env.sendRaises then ([Act.send], true)
  else if env.waitRaises then ([Act.send, Act.waitDone], true)
  else ([Act.send, Act.waitDone, Act.destroySession, Act.stopClient], false)

/-- The advanced variant's post-session-creation slice: the `finally`
block runs `destroy`, `stop`, `cleanup_repo` on every exit path, and the
exception (if any) is then re-raised. -/
def advOrchestrate (env : OrcEnv) : List Act × Bool :=
  let body : List Act × Bool :=
    if env.sendRaises then ([Act.send], true)
    else if env.waitRaises then ([Act.send, Act.waitDone], true)
    else ([Act.send, Act.waitDone], false)
  (body.1 ++ [Act.destroySession, Act.stopClient, Act.cleanupRepo], body.2)

/-! ## Full pipeline and HTTP route

The value returned across the system boundary by the `/api/analyze`
route.  A returned JSON object is modelled by its possible fields; a
field the source dict does not contain is `none`. -/

/-- The JSON payload of a response. -/
structure JsonObj where
  error : Option String := none
  response : Option String := none
  events : Option (List LogRecord) := none
  owner : Option String := none
  repo : Option String := none
deriving DecidableEq

/-- Python truthiness of `owner` / `repo` (`None` and `""` are falsy). -/
def truthyOpt : Option String → Bool
  | none => false
  | some s => s != ""

/-- Did `parse_github_url` produce a pair passing the caller's
`if not owner or not repo` check? -/
def parsedOk (url : String) : Bool :=
  truthyOpt (parse_github_url url).1 && truthyOpt (parse_github_url url).2

/-- The payload returned on an unparsable reference (both variants). -/
def invalidUrlResp : JsonObj :=
  { response := some "Invalid GitHub URL. Please use format: https://github.com/owner/repo",
    events := some [] }

/-- External engine behaviour for one run: whether `client.start()`,
`client.create_session(...)`, `session.send(...)` or `done.wait()` raises,
the message of the raised exception (`str(e)`), and the events delivered
to the handler. -/
structure EngEnv where
  startRaises : Bool
  createRaises : Bool
  sendRaises : Bool
  waitRaises : Bool
  failMsg : String
  events : List Ev

/-- Does any engine/session step of the run raise? -/
def engineRaises (env : EngEnv) : Bool :=
  env.startRaises || env.createRaises || env.sendRaises || env.waitRaises

/-- `analyze_github_repo` from `src/app.py` lines 46-172 as a value-level
function: parse, early-return on an unparsable reference, then drive the
session; an engine exception propagates (`Except.error`); otherwise the
success payload is built from the handler state. -/
def appAnalyze (env : EngEnv) (repo_url analysis_type : String) : Except String JsonObj :=
  let pr := parse_github_url repo_url
  if !truthyOpt pr.1 || !truthyOpt pr.2 then Except.ok invalidUrlResp
  else if env.startRaises then Except.error env.failMsg
  else if env.createRaises then Except.error env.failMsg
  else if env.sendRaises then Except.error env.failMsg
  else if env.waitRaises then Except.error env.failMsg
  else
    let st := processEvents initHState env.events
    Except.ok { response := some (buildResponse st.response_content),
                events := some st.events_log,
                owner := pr.1, repo := pr.2 }

/-- Environment of one advanced-variant run: clone outcome plus engine
behaviour. -/
structure AdvEnv where
  clone : CloneEnv
  eng : EngEnv

/-- `analyze_github_repo` from `src/advanced_app.py` lines 167-360:
like the basic variant, but a failed clone is caught and returned as a
success-shaped payload whose `response` wraps `str(e)` (which already
contains the `Failed to clone repository: ` text), and the `finally`
block (teardown + cleanup) does not change the returned value. -/
def advAnalyze (env : AdvEnv) (repo_url analysis_type : String) : Except String JsonObj :=
  let pr := parse_github_url repo_url
  if !truthyOpt pr.1 || !truthyOpt pr.2 then Except.ok invalidUrlResp
  else
    match clone_repo env.clone (pr.1.getD "") (pr.2.getD "") with
    | Except.error e =>
      Except.ok { response := some ("Failed to clone repository: " ++ e), events := some [] }
    | Except.ok _ =>
      if env.eng.startRaises then Except.error env.eng.failMsg
      else if env.eng.createRaises then Except.error env.eng.failMsg
      else if env.eng.sendRaises then Except.error env.eng.failMsg
      else if env.eng.waitRaises then Except.error env.eng.failMsg
      else
        let st := processEvents initHState env.eng.events
        Except.ok { response := some (buildResponse st.response_content),
                    events := some st.events_log,
                    owner := pr.1, repo := pr.2 }

/-- The `/api/analyze` route of the basic variant (`src/app.py` lines
181-195): missing/empty `repo_url` gives `{'error': ...}, 400`; an
exception from the pipeline gives `{'error': str(e)}, 500`; otherwise the
pipeline result is returned with status 200. -/
def analyzeRoute (env : EngEnv) (repo_url analysis_type : String) : JsonObj × Nat :=
  if repo_url = "" then ({ error := some "Repository URL is required" }, 400)
  else
    match appAnalyze env repo_url analysis_type with
    | Except.ok d => (d, 200)
    | Except.error e => ({ error := some e }, 500)

/-- The `/api/analyze` route of the advanced variant
(`src/advanced_app.py` lines 369-383, same marshaling). -/
def advAnalyzeRoute (env : AdvEnv) (repo_url analysis_type : String) : JsonObj × Nat :=
  if repo_url = "" then ({ error := some "Repository URL is required" }, 400)
  else
    match advAnalyze env repo_url analysis_type with
    | Except.ok d => (d, 200)
    | Except.error e => ({ error := some e }, 500)

/-! ## Instruction templates (`analysis_prompts["diagram"]`)

The f-strings are embedded as the concatenation of their literal pieces,
split exactly at the interpolation points `{owner}`, `{repo}`,
`{repo_path}`.  Only the `diagram` entries are needed by the claims. -/

/-- Literal piece 1 of the advanced diagram template
(`src/advanced_app.py` lines 284-326). -/
def advDiagram1 : String :=
  "You are a helpful assistant that analyzes code repositories and creates Mermaid diagrams.\n\nI have cloned the GitHub repository "

/-- Literal piece 2 of the advanced diagram template. -/
def advDiagram2 : String := " to a local folder at: "

/-- Literal piece 3 of the advanced diagram template (between the first
`{repo_path}` and the second `{owner}`), containing the syntax rules and
the worked correct/incorrect examples. -/
def advDiagram3 : String :=
  "\n\nPlease analyze this LOCAL repository using file system tools (read_file, list_dir, grep_search).\n\nYour task:\n1. Explore the directory structure using list_dir\n2. Read key files to understand the architecture (README.md, main source files, config files)\n3. Based on your analysis, create a Mermaid flow diagram\n\nCRITICAL MERMAID SYNTAX RULES:\n- Each node definition MUST be on a SINGLE LINE\n- Node labels should be SHORT (1-5 words max)\n- Do NOT put newlines inside square brackets []\n- Use simple IDs like A, B, C or short names like React, DOM, etc.\n- If you need line breaks in labels, use <br> tag, NOT actual newlines\n\nOutput a Mermaid diagram using EXACTLY this format:\n```mermaid\ngraph TD\n    A[Short Label] --> B[Another Label]\n    B --> C[Third Label]\n    C --> D[Fourth Label]\n```\n\nCORRECT example:\n```mermaid\ngraph TD\n    A[React Core] --> B[Reconciler]\n    B --> C[React DOM]\n    B --> D[React Native]\n```\n\nWRONG example (DO NOT DO THIS):\n```mermaid\ngraph TD\n    A[React Core\n    Package] --> B[Reconciler]\n```\n\nKeep node labels concise. Use actual component/directory names from "

/-- Literal piece 4 of the advanced diagram template. -/
def advDiagram4 : String := ".\nStart by listing the contents of "

/-- `analysis_prompts["diagram"]` of the advanced variant: the f-string
with `owner`, `repo` and `repo_path` interpolated. -/
def analysis_prompts_diagram (owner repo repo_path : String) : String :=
  advDiagram1 ++ owner ++ "/" ++ repo ++ advDiagram2 ++ repo_path ++
    advDiagram3 ++ owner ++ "/" ++ repo ++ advDiagram4 ++ repo_path

/-- Literal piece 1 of the basic diagram template
(`src/app.py` lines 124-146). -/
def basDiagram1 : String :=
  "You are a helpful assistant that analyzes GitHub repositories and creates Mermaid diagrams.\n\nIMPORTANT: Do NOT analyze any local files or the current working directory.\nONLY analyze the remote GitHub repository at this URL: https://github.com/"

/-- Literal piece 2 of the basic diagram template. -/
def basDiagram2 : String := "\n\nYour task:\n1. Fetch information about the GitHub repository "

/-- Literal piece 3 of the basic diagram template. -/
def basDiagram3 : String :=
  " from the web\n2. Based on the repository's README, file structure, and code organization, create a Mermaid flow diagram\n\nThe diagram should show:\n- The overall architecture/structure of the project\n- How different components/modules relate to each other\n- Data flow or dependency relationships between parts\n\nOutput a Mermaid diagram using this format:\n```mermaid\ngraph TD\n    A[Component A] --> B[Component B]\n    B --> C[Component C]\n```\n\nUse actual component names, directories, or module names from the "

/-- Literal piece 4 of the basic diagram template. -/
def basDiagram4 : String :=
  " repository.\nDo NOT reference any local files - only use information from the GitHub repository."

/-- `analysis_prompts["diagram"]` of the basic variant. -/
def analysis_prompts_diagram_basic (owner repo : String) : String :=
  basDiagram1 ++ owner ++ "/" ++ repo ++ basDiagram2 ++ owner ++ "/" ++ repo ++
    basDiagram3 ++ owner ++ "/" ++ repo ++ basDiagram4

/-- The fixed diagram-format constraint block of the advanced template,
exactly as it appears there: single-line node declarations, short labels,
no literal line breaks inside label brackets. -/
def mermaidRules : String :=
  "CRITICAL MERMAID SYNTAX RULES:\n- Each node definition MUST be on a SINGLE LINE\n- Node labels should be SHORT (1-5 words max)\n- Do NOT put newlines inside square brackets []\n- Use simple IDs like A, B, C or short names like React, DOM, etc.\n- If you need line breaks in labels, use <br> tag, NOT actual newlines"

/-! ## Helper lemmas: the event handler -/

theorem handle_event_done (st : HState) (e : Ev) :
    (handle_event st e).done = (st.done || isIdle e) := by
  cases e <;> simp [handle_event, isIdle]
  split <;> rfl

theorem processEvents_done (es : List Ev) : ∀ st : HState,
    (processEvents st es).done = (st.done || es.any isIdle) := by
  induction es with
  | nil => intro st; simp [processEvents]
  | cons e es ih =>
    intro st
    simp only [processEvents, List.foldl_cons, List.any_cons]
    rw [show List.foldl handle_event (handle_event st e) es = processEvents (handle_event st e) es from rfl]
    rw [ih, handle_event_done, Bool.or_assoc]

theorem processEvents_log (es : List Ev) : ∀ st : HState,
    (processEvents st es).events_log = st.events_log ++ es.filterMap logOf := by
  induction es with
  | nil => intro st; simp [processEvents]
  | cons e es ih =>
    intro st
    simp only [processEvents, List.foldl_cons, List.filterMap_cons]
    rw [show List.foldl handle_event (handle_event st e) es = processEvents (handle_event st e) es from rfl]
    rw [ih]
    cases e with
    | messageDelta dc =>
      by_cases h : dc.getD "" ≠ "" <;> simp [handle_event, logOf, h]
    | _ => simp [handle_event, logOf]

theorem processEvents_rc (es : List Ev) : ∀ st : HState,
    (processEvents st es).response_content = st.response_content ++ es.filterMap msgOf := by
  induction es with
  | nil => intro st; simp [processEvents]
  | cons e es ih =>
    intro st
    simp only [processEvents, List.foldl_cons, List.filterMap_cons]
    rw [show List.foldl handle_event (handle_event st e) es = processEvents (handle_event st e) es from rfl]
    rw [ih]
    cases e with
    | messageDelta dc =>
      by_cases h : dc.getD "" ≠ "" <;> simp [handle_event, msgOf, h]
    | _ => simp [handle_event, msgOf]

theorem doneFlips_closed (es : List Ev) : ∀ st : HState,
    doneFlips st es = if st.done then 0 else if es.any isIdle then 1 else 0 := by
  induction es with
  | nil => intro st; cases h : st.done <;> simp [doneFlips, h]
  | cons e es ih =>
    intro st
    simp only [doneFlips, List.any_cons]
    rw [ih, handle_event_done]
    rcases Bool.eq_false_or_eq_true st.done with h | h <;>
      rcases Bool.eq_false_or_eq_true (isIdle e) with hi | hi <;>
        simp [h, hi]

/-! ## Helper lemmas: the workspace reaper -/

theorem rmAttempt_ok_pExists (env : RmEnv) (k : Nat) (st st2 : DirSt)
    (h : rmAttempt env k st = Except.ok st2) : st2.pExists = false := by
  unfold rmAttempt at h
  by_cases hp : st.pExists = true
  · simp only [hp, if_true] at h
    by_cases hg : (st.gitExists && env.gcRaises k) = true
    · simp [hg] at h
    · simp only [hg] at h
      by_cases hr : env.rmRaises k = true
      · simp [hr] at h
      · simp only [hr] at h
        simp only [Bool.false_eq_true, if_false] at h
        cases h
        rfl
  · simp only [Bool.not_eq_true] at hp
    simp only [hp, Bool.false_eq_true, if_false, Except.ok.injEq] at h
    rw [← h, hp]

theorem rmLoop_ok_pExists (env : RmEnv) (r : Nat) (ks : List Nat) : ∀ st : DirSt,
    (rmLoop env r ks st).ok = true → (rmLoop env r ks st).st.pExists = false := by
  induction ks with
  | nil => intro st h; simp [rmLoop] at h
  | cons k ks ih =>
    intro st h
    unfold rmLoop at h ⊢
    cases ha : rmAttempt env k st with
    | ok st2 => simp only [ha]; exact rmAttempt_ok_pExists env k st st2 ha
    | error u => simp only [ha] at h ⊢; exact ih st h

/-! ## Helper lemmas: substring containment -/

theorem leadEq_append (p : List Char) : ∀ x b : List Char,
    leadEq p x = true → leadEq p (x ++ b) = true := by
  induction p with
  | nil => intro x b h; rfl
  | cons pc ps ih =>
    intro x b h
    cases x with
    | nil => simp [leadEq] at h
    | cons c cs =>
      simp only [List.cons_append, leadEq, Bool.and_eq_true] at h ⊢
      exact ⟨h.1, ih cs b h.2⟩

theorem listContains_nil_pat : ∀ s : List Char, listContains [] s = true := by
  intro s
  cases s <;> simp [listContains, leadEq]

theorem listContains_append_left (p : List Char) : ∀ a b : List Char,
    listContains p a = true → listContains p (a ++ b) = true := by
  intro a
  induction a with
  | nil =>
    intro b h
    cases p with
    | nil => simpa using listContains_nil_pat b
    | cons pc ps => simp [listContains, leadEq] at h
  | cons c cs ih =>
    intro b h
    simp only [listContains, Bool.or_eq_true] at h
    rcases h with h | h
    · simp only [List.cons_append, listContains, Bool.or_eq_true]
      left
      have h2 := leadEq_append p (c :: cs) b h
      simpa using h2
    · simp only [List.cons_append, listContains, Bool.or_eq_true]
      right
      exact ih b h

theorem listContains_append_right (p : List Char) : ∀ a b : List Char,
    listContains p b = true → listContains p (a ++ b) = true := by
  intro a
  induction a with
  | nil => intro b h; simpa using h
  | cons c cs ih =>
    intro b h
    simp only [List.cons_append, listContains, Bool.or_eq_true]
    right
    exact ih b h

theorem strData_append (a b : String) : (a ++ b).data = a.data ++ b.data := by
  cases a
  cases b
  rfl

/-! ## Helper lemmas: the URL parser -/

theorem takeWhile_append_stop (r : List Char) : ∀ l : List Char,
    (∀ c ∈ l, notSlash c = true) → (l ++ '/' :: r).takeWhile notSlash = l := by
  intro l
  induction l with
  | nil =>
    intro h
    simp [List.takeWhile_cons, notSlash]
  | cons c cs ih =>
    intro h
    rw [List.cons_append, List.takeWhile_cons, h c (List.mem_cons_self c cs)]
    rw [ih fun x hx => h x (List.mem_cons_of_mem c hx)]
    simp

theorem dropWhile_append_stop (r : List Char) : ∀ l : List Char,
    (∀ c ∈ l, notSlash c = true) → (l ++ '/' :: r).dropWhile notSlash = '/' :: r := by
  intro l
  induction l with
  | nil =>
    intro h
    simp [List.dropWhile_cons, notSlash]
  | cons c cs ih =>
    intro h
    rw [List.cons_append, List.dropWhile_cons, h c (List.mem_cons_self c cs)]
    simp only [if_true]
    exact ih fun x hx => h x (List.mem_cons_of_mem c hx)

theorem dropWhile_none (p : Char → Bool) : ∀ l : List Char,
    (∀ c ∈ l, p c = false) → l.dropWhile p = l := by
  intro l
  cases l with
  | nil => intro h; rfl
  | cons c cs =>
    intro h
    simp only [List.dropWhile]
    rw [h c (List.mem_cons_self c cs)]

theorem dropWhile_all_true (p : Char → Bool) : ∀ l : List Char,
    (∀ c ∈ l, p c = true) → l.dropWhile p = [] := by
  intro l
  induction l with
  | nil => intro h; rfl
  | cons c cs ih =>
    intro h
    simp only [List.dropWhile]
    rw [h c (List.mem_cons_self c cs)]
    exact ih fun x hx => h x (List.mem_cons_of_mem c hx)

theorem pyStrip_eq_self (l : List Char) (h : ∀ c ∈ l, isPySpace c = false) :
    pyStrip l = l := by
  unfold pyStrip
  rw [dropWhile_none isPySpace l h]
  rw [dropWhile_none isPySpace l.reverse fun c hc => h c (List.mem_reverse.mp hc)]
  exact List.reverse_reverse l

theorem leadEq_decomp (p : List Char) : ∀ l : List Char,
    leadEq p l = true → ∃ r, l = p ++ r := by
  induction p with
  | nil => intro l h; exact ⟨l, rfl⟩
  | cons pc ps ih =>
    intro l h
    cases l with
    | nil => simp [leadEq] at h
    | cons c cs =>
      simp only [leadEq, Bool.and_eq_true, beq_iff_eq] at h
      obtain ⟨hpc, htail⟩ := h
      obtain ⟨r, hr⟩ := ih cs htail
      refine ⟨r, ?_⟩
      rw [List.cons_append, hpc, hr]

theorem stripDotGit_append_git (n : List Char) (hn : n ≠ []) :
    stripDotGit (n ++ ".git".data) = n := by
  unfold stripDotGit
  have hlen : (n ++ ".git".data).length = n.length + 4 := by simp
  rw [if_pos]
  · rw [hlen]
    rw [show n.length + 4 - 4 = n.length by omega]
    exact List.take_left' rfl
  · constructor
    · rw [hlen]
      have : 0 < n.length := List.length_pos.mpr hn
      omega
    · rw [hlen]
      rw [show n.length + 4 - 4 = n.length by omega]
      exact List.drop_left' rfl

theorem parseTail_git_slash (n : List Char) (hn : n ≠ [])
    (hn2 : ∀ c ∈ n, notSlash c = true) :
    parseTail (n ++ ".git/".data) = some n := by
  have hns : ∀ c ∈ n ++ ".git".data, notSlash c = true := by
    intro c hc
    rcases List.mem_append.mp hc with hc | hc
    · exact hn2 c hc
    · fin_cases hc <;> decide
  have hsplit : n ++ ".git/".data = (n ++ ".git".data) ++ '/' :: [] := by
    rw [List.append_assoc]
    rfl
  unfold parseTail
  rw [hsplit]
  rw [takeWhile_append_stop [] (n ++ ".git".data) hns]
  rw [dropWhile_append_stop [] (n ++ ".git".data) hns]
  rw [if_neg (by simp [hn])]
  simp only
  rw [stripDotGit_append_git n hn]

theorem takeWhile_all_true (p : Char → Bool) : ∀ l : List Char,
    (∀ c ∈ l, p c = true) → l.takeWhile p = l := by
  intro l
  induction l with
  | nil => intro h; rfl
  | cons c cs ih =>
    intro h
    rw [List.takeWhile_cons, h c (List.mem_cons_self c cs)]
    rw [ih fun x hx => h x (List.mem_cons_of_mem c hx)]
    simp

theorem parseTail_plain (n : List Char) (hn : n ≠ [])
    (hn2 : ∀ c ∈ n, notSlash c = true) :
    parseTail n = some (stripDotGit n) := by
  unfold parseTail
  rw [takeWhile_all_true notSlash n hn2]
  rw [dropWhile_all_true notSlash n hn2]
  rw [if_neg hn]

theorem parseTail_slash (n : List Char) (hn : n ≠ [])
    (hn2 : ∀ c ∈ n, notSlash c = true) :
    parseTail (n ++ ['/']) = some (stripDotGit n) := by
  unfold parseTail
  rw [takeWhile_append_stop [] n hn2]
  rw [dropWhile_append_stop [] n hn2]
  rw [if_neg hn]
  rfl

theorem parseTail_git (n : List Char) (hn : n ≠ [])
    (hn2 : ∀ c ∈ n, notSlash c = true) :
    parseTail (n ++ ".git".data) = some n := by
  have hns : ∀ c ∈ n ++ ".git".data, notSlash c = true := by
    intro c hc
    rcases List.mem_append.mp hc with hc | hc
    · exact hn2 c hc
    · fin_cases hc <;> decide
  unfold parseTail
  rw [takeWhile_all_true notSlash _ hns]
  rw [dropWhile_all_true notSlash _ hns]
  rw [if_neg (by simp [hn])]
  simp only
  rw [stripDotGit_append_git n hn]

theorem ownerTail_of_parseTail (o t n : List Char) (ho : o ≠ [])
    (ho2 : ∀ c ∈ o, notSlash c = true) (ht : parseTail t = some n) :
    ownerTail (o ++ '/' :: t) = some (o, n) := by
  unfold ownerTail
  rw [takeWhile_append_stop t o ho2]
  rw [dropWhile_append_stop t o ho2]
  rw [if_neg (by simp [ho])]
  simp only
  rw [ht]

theorem searchGithub_cons (c : Char) (cs : List Char) :
    searchGithub (c :: cs) =
      match (if leadEq ghMarker (c :: cs) then ownerTail ((c :: cs).drop 11) else none) with
      | some r => some r
      | none => searchGithub cs := rfl

theorem searchGithub_cons_ne (c : Char) (cs : List Char) (h : c ≠ 'g') :
    searchGithub (c :: cs) = searchGithub cs := by
  have hg : ('g' == c) = false := by
    rcases Bool.eq_false_or_eq_true ('g' == c) with hb | hb
    · exact absurd (eq_of_beq hb).symm h
    · exact hb
  have hl : leadEq ghMarker (c :: cs) = false := by
    show (('g' == c) && leadEq "ithub.com/".data cs) = false
    rw [hg]
    rfl
  rw [searchGithub_cons, hl]
  simp

theorem searchGithub_marker (r : List Char) (x : List Char × List Char)
    (h : ownerTail r = some x) :
    searchGithub ('g' :: 'i' :: 't' :: 'h' :: 'u' :: 'b' :: '.' :: 'c' :: 'o' :: 'm' :: '/' :: r)
      = some x := by
  have hl : leadEq ghMarker
      ('g' :: 'i' :: 't' :: 'h' :: 'u' :: 'b' :: '.' :: 'c' :: 'o' :: 'm' :: '/' :: r) = true := by
    simp [ghMarker, leadEq]
  unfold searchGithub
  rw [show ('g' :: 'i' :: 't' :: 'h' :: 'u' :: 'b' :: '.' :: 'c' :: 'o' :: 'm' :: '/' :: r).drop 11
      = r from rfl]
  rw [hl]
  simp [h]

theorem notSlash_of_count_zero (l : List Char) (h : l.count '/' = 0) :
    ∀ c ∈ l, notSlash c = true := by
  intro c hc
  have hne : c ≠ '/' := by
    intro he
    rw [he] at hc
    exact List.count_eq_zero.mp h hc
  simp [notSlash, hne]

theorem ownerTail_no_slash (r : List Char) (h : r.count '/' = 0) :
    ownerTail r = none := by
  unfold ownerTail
  rw [dropWhile_all_true notSlash r (notSlash_of_count_zero r h)]
  dsimp only
  split
  · rfl
  · rfl

theorem searchGithub_le_one_slash : ∀ cs : List Char,
    cs.count '/' ≤ 1 → searchGithub cs = none := by
  intro cs
  induction cs with
  | nil => intro h; rfl
  | cons c cs ih =>
    intro h
    have hcs : cs.count '/' ≤ 1 := by
      have := List.count_cons '/' c cs
      omega
    unfold searchGithub
    rcases Bool.eq_false_or_eq_true (leadEq ghMarker (c :: cs)) with hl | hl
    · obtain ⟨r, hr⟩ := leadEq_decomp ghMarker (c :: cs) hl
      have hrc : r.count '/' = 0 := by
        have hall : (c :: cs).count '/' = ghMarker.count '/' + r.count '/' := by
          rw [hr]
          exact List.count_append '/' ghMarker r
        have hm : ghMarker.count '/' = 1 := by decide
        omega
      have hdrop : (c :: cs).drop 11 = r := by
        rw [hr]
        exact List.drop_left' (by decide)
      rw [hl, hdrop, ownerTail_no_slash r hrc]
      simp only [if_true]
      exact ih hcs
    · rw [hl]
      simp only [Bool.false_eq_true, if_false]
      exact ih hcs

theorem bareMatch_pair (o n : List Char) (ho : o ≠ [])
    (ho2 : ∀ c ∈ o, notSlash c = true) (hn : n ≠ [])
    (hn2 : ∀ c ∈ n, notSlash c = true) :
    bareMatch (o ++ '/' :: n) = some (o, n) := by
  unfold bareMatch
  rw [takeWhile_append_stop n o ho2]
  rw [dropWhile_append_stop n o ho2]
  rw [if_neg (by simp [ho])]
  simp only
  rw [if_pos ⟨hn, List.all_eq_true.mpr hn2⟩]

/-! ### Inversion lemmas: every successful match exhibits the matched
shape of the input (completeness direction of claim C3) -/

theorem parseTail_inv (t n : List Char) (h : parseTail t = some n) :
    ∃ w s, t = w ++ s ∧ (s = [] ∨ s = ['/']) ∧ w ≠ []
      ∧ (∀ c ∈ w, notSlash c = true) ∧ n = stripDotGit w := by
  unfold parseTail at h
  dsimp only at h
  split at h
  · simp at h
  · rename_i hw
    split at h
    · rename_i hdrop
      rw [Option.some.injEq] at h
      refine ⟨t.takeWhile notSlash, [], ?_, Or.inl rfl, hw,
        fun c hc => List.mem_takeWhile_imp hc, h.symm⟩
      have hx := List.takeWhile_append_dropWhile notSlash t
      rw [hdrop, List.append_nil] at hx
      rw [List.append_nil]
      exact hx.symm
    · rename_i hdrop
      rw [Option.some.injEq] at h
      refine ⟨t.takeWhile notSlash, ['/'], ?_, Or.inr rfl, hw,
        fun c hc => List.mem_takeWhile_imp hc, h.symm⟩
      have hx := List.takeWhile_append_dropWhile notSlash t
      rw [hdrop] at hx
      exact hx.symm
    · simp at h

theorem ownerTail_inv (cs o n : List Char) (h : ownerTail cs = some (o, n)) :
    ∃ t, cs = o ++ '/' :: t ∧ o ≠ [] ∧ (∀ c ∈ o, notSlash c = true)
      ∧ parseTail t = some n := by
  unfold ownerTail at h
  dsimp only at h
  split at h
  · simp at h
  · rename_i ho
    split at h
    · rename_i t hteq
      cases hp : parseTail t with
      | some m =>
        rw [hp] at h
        dsimp only at h
        rw [Option.some.injEq, Prod.mk.injEq] at h
        obtain ⟨h1, h2⟩ := h
        subst h1
        subst h2
        refine ⟨t, ?_, ho, fun c hc => List.mem_takeWhile_imp hc, hp⟩
        have hx := List.takeWhile_append_dropWhile notSlash cs
        rw [hteq] at hx
        exact hx.symm
      | none =>
        rw [hp] at h
        simp at h
    · simp at h

theorem bareMatch_inv (cs o n : List Char) (h : bareMatch cs = some (o, n)) :
    cs = o ++ '/' :: n ∧ o ≠ [] ∧ (∀ c ∈ o, notSlash c = true) ∧ n ≠ []
      ∧ (∀ c ∈ n, notSlash c = true) := by
  unfold bareMatch at h
  dsimp only at h
  split at h
  · simp at h
  · rename_i ha
    split at h
    · rename_i b hbeq
      split at h
      · rename_i hcond
        rw [Option.some.injEq, Prod.mk.injEq] at h
        obtain ⟨h1, h2⟩ := h
        subst h1
        subst h2
        refine ⟨?_, ha, fun c hc => List.mem_takeWhile_imp hc,
          hcond.1, List.all_eq_true.mp hcond.2⟩
        have hx := List.takeWhile_append_dropWhile notSlash cs
        rw [hbeq] at hx
        exact hx.symm
      · simp at h
    · simp at h

theorem searchGithub_inv : ∀ cs o n : List Char, searchGithub cs = some (o, n) →
    ∃ pre t, cs = pre ++ (ghMarker ++ t) ∧ ownerTail t = some (o, n) := by
  intro cs
  induction cs with
  | nil => intro o n h; simp [searchGithub] at h
  | cons c cs ih =>
    intro o n h
    unfold searchGithub at h
    rcases Bool.eq_false_or_eq_true (leadEq ghMarker (c :: cs)) with hl | hl
    · rw [hl, if_pos rfl] at h
      cases hx : ownerTail ((c :: cs).drop 11) with
      | some r =>
        rw [hx] at h
        dsimp only at h
        rw [Option.some.injEq] at h
        obtain ⟨rr, hr⟩ := leadEq_decomp ghMarker (c :: cs) hl
        have hdrop : (c :: cs).drop 11 = rr := by
          rw [hr]
          exact List.drop_left' (by decide)
        refine ⟨[], rr, by rw [List.nil_append]; exact hr, ?_⟩
        rw [← hdrop, hx, h]
      | none =>
        rw [hx] at h
        dsimp only at h
        obtain ⟨pre, t, hdec, hot⟩ := ih o n h
        exact ⟨c :: pre, t, by rw [List.cons_append, hdec], hot⟩
    · rw [hl, if_neg (by simp)] at h
      dsimp only at h
      obtain ⟨pre, t, hdec, hot⟩ := ih o n h
      exact ⟨c :: pre, t, by rw [List.cons_append, hdec], hot⟩

/-- Inversion at the top level: whenever `parse_github_url` succeeds, the
trimmed input literally has one of the two recognized shapes — it ends
with `github.com/owner/<run>[/]` where the returned name is the run minus
one optional `.git` suffix, or it is exactly `owner/name`.
Contrapositive: every string of neither shape yields the not-found pair
(`C10_parse_result_shape` excludes any other result). -/
theorem parse_some_inv (url : String) (ow nm : String)
    (h : parse_github_url url = (some ow, some nm)) :
    (∃ pre w s, pyStrip url.data = pre ++ (ghMarker ++ (ow.data ++ '/' :: (w ++ s)))
      ∧ (s = [] ∨ s = ['/']) ∧ w ≠ [] ∧ (∀ c ∈ w, notSlash c = true)
      ∧ ow.data ≠ [] ∧ (∀ c ∈ ow.data, notSlash c = true)
      ∧ nm.data = stripDotGit w)
    ∨ pyStrip url.data = ow.data ++ '/' :: nm.data := by
  unfold parse_github_url at h
  dsimp only at h
  cases hs : searchGithub (pyStrip url.data) with
  | some r =>
    rw [hs] at h
    obtain ⟨o2, n2⟩ := r
    dsimp only at h
    rw [Prod.mk.injEq] at h
    obtain ⟨h1, h2⟩ := h
    rw [Option.some.injEq] at h1 h2
    have hod : ow.data = o2 := congrArg String.data h1.symm
    have hnd : nm.data = n2 := congrArg String.data h2.symm
    left
    obtain ⟨pre, t, hdec, hot⟩ := searchGithub_inv _ o2 n2 hs
    obtain ⟨t2, hteq, honil, hoS, hpt⟩ := ownerTail_inv t o2 n2 hot
    obtain ⟨w, s, ht2, hsor, hw1, hwS, hnw⟩ := parseTail_inv t2 n2 hpt
    refine ⟨pre, w, s, ?_, hsor, hw1, hwS, ?_, ?_, ?_⟩
    · rw [hdec, hteq, ht2, hod]
    · rw [hod]
      exact honil
    · rw [hod]
      exact hoS
    · rw [hnd, hnw]
  | none =>
    rw [hs] at h
    dsimp only at h
    cases hb : bareMatch (pyStrip url.data) with
    | some r =>
      rw [hb] at h
      obtain ⟨a, b⟩ := r
      dsimp only at h
      rw [Prod.mk.injEq] at h
      obtain ⟨h1, h2⟩ := h
      rw [Option.some.injEq] at h1 h2
      right
      obtain ⟨hcs, _, _, _, _⟩ := bareMatch_inv _ a b hb
      rw [show ow.data = a from congrArg String.data h1.symm,
          show nm.data = b from congrArg String.data h2.symm]
      exact hcs
    | none =>
      rw [hb] at h
      simp at h

/-! ### Shape lemmas for the parser result (claim C10) -/

theorem stripDotGit_ne_nil (w : List Char) (hw : w ≠ []) : stripDotGit w ≠ [] := by
  unfold stripDotGit
  split
  · rename_i hcond
    have h4 : 4 < w.length := hcond.1
    have : (w.take (w.length - 4)).length = w.length - 4 := by
      rw [List.length_take]
      omega
    intro hnil
    rw [hnil] at this
    simp at this
    omega
  · exact hw

theorem stripDotGit_mem (w : List Char) : ∀ c ∈ stripDotGit w, c ∈ w := by
  intro c hc
  unfold stripDotGit at hc
  split at hc
  · exact List.take_subset _ _ hc
  · exact hc

theorem parseTail_shape (t n : List Char) (h : parseTail t = some n) :
    n ≠ [] ∧ ∀ c ∈ n, notSlash c = true := by
  unfold parseTail at h
  dsimp only at h
  split at h
  · simp at h
  · rename_i hw
    have hmem : ∀ c ∈ t.takeWhile notSlash, notSlash c = true :=
      fun c hc => List.mem_takeWhile_imp hc
    split at h
    · rw [Option.some.injEq] at h
      rw [← h]
      exact ⟨stripDotGit_ne_nil _ hw, fun c hc => hmem c (stripDotGit_mem _ c hc)⟩
    · rw [Option.some.injEq] at h
      rw [← h]
      exact ⟨stripDotGit_ne_nil _ hw, fun c hc => hmem c (stripDotGit_mem _ c hc)⟩
    · simp at h

theorem ownerTail_shape (cs o n : List Char) (h : ownerTail cs = some (o, n)) :
    (o ≠ [] ∧ ∀ c ∈ o, notSlash c = true) ∧ (n ≠ [] ∧ ∀ c ∈ n, notSlash c = true) := by
  unfold ownerTail at h
  dsimp only at h
  split at h
  · simp at h
  · rename_i ho
    split at h
    · rename_i t hteq
      cases hp : parseTail t with
      | some m =>
        rw [hp] at h
        dsimp only at h
        rw [Option.some.injEq, Prod.mk.injEq] at h
        obtain ⟨h1, h2⟩ := h
        subst h1
        subst h2
        exact ⟨⟨ho, fun c hc => List.mem_takeWhile_imp hc⟩, parseTail_shape t _ hp⟩
      | none =>
        rw [hp] at h
        simp at h
    · simp at h

theorem bareMatch_shape (cs o n : List Char) (h : bareMatch cs = some (o, n)) :
    (o ≠ [] ∧ ∀ c ∈ o, notSlash c = true) ∧ (n ≠ [] ∧ ∀ c ∈ n, notSlash c = true) := by
  unfold bareMatch at h
  dsimp only at h
  split at h
  · simp at h
  · rename_i ha
    split at h
    · rename_i b hbeq
      split at h
      · rename_i hcond
        rw [Option.some.injEq, Prod.mk.injEq] at h
        obtain ⟨h1, h2⟩ := h
        subst h1
        subst h2
        exact ⟨⟨ha, fun c hc => List.mem_takeWhile_imp hc⟩,
               ⟨hcond.1, List.all_eq_true.mp hcond.2⟩⟩
      · simp at h
    · simp at h

theorem searchGithub_shape : ∀ cs o n : List Char, searchGithub cs = some (o, n) →
    (o ≠ [] ∧ ∀ c ∈ o, notSlash c = true) ∧ (n ≠ [] ∧ ∀ c ∈ n, notSlash c = true) := by
  intro cs
  induction cs with
  | nil => intro o n h; simp [searchGithub] at h
  | cons c cs ih =>
    intro o n h
    unfold searchGithub at h
    rcases Bool.eq_false_or_eq_true (leadEq ghMarker (c :: cs)) with hl | hl
    · rw [hl, if_pos rfl] at h
      cases hx : ownerTail ((c :: cs).drop 11) with
      | some r =>
        rw [hx] at h
        dsimp only at h
        obtain ⟨o2, n2⟩ := r
        rw [Option.some.injEq, Prod.mk.injEq] at h
        obtain ⟨h1, h2⟩ := h
        subst h1
        subst h2
        exact ownerTail_shape _ _ _ hx
      | none =>
        rw [hx] at h
        dsimp only at h
        exact ih o n h
    · rw [hl, if_neg (by simp)] at h
      dsimp only at h
      exact ih o n h

/-! ## Claim theorems -/

/-- Claim C3 counterexample (claim as stated is false): three reference
strings that match the claim's `host/owner/name` or bare `owner/name`
shapes "with optional `.git` suffix and optional trailing slash in both
forms" are not parsed that way by the code: a trailing slash on the bare
form yields the not-found pair, a `.git` suffix on the bare form is kept
inside the returned name, and a non-`github.com` host yields the
not-found pair. -/
theorem C3_counterexample :
    parse_github_url "acme/widgets/" = (none, none)
    ∧ parse_github_url "acme/widgets.git" = (some "acme", some "widgets.git")
    ∧ (some "widgets.git" : Option String) ≠ some "widgets"
    ∧ parse_github_url "https://gitlab.com/acme/widgets" = (none, none) := by decide

/-- The full-URL positive case, factored over the text `t` that follows
`github.com/owner/`: whenever `parseTail t = some n`, the parser returns
`(owner, n)`. -/
theorem parse_gh_of_tail (o t n : List Char) (ho1 : o ≠ [])
    (hoS : ∀ c ∈ o, notSlash c = true)
    (hsp : ∀ c ∈ ("https://github.com/".data ++ (o ++ '/' :: t)), isPySpace c = false)
    (ht : parseTail t = some n) :
    parse_github_url ⟨"https://github.com/".data ++ (o ++ '/' :: t)⟩
      = (some ⟨o⟩, some ⟨n⟩) := by
  unfold parse_github_url
  rw [show (⟨"https://github.com/".data ++ (o ++ '/' :: t)⟩ : String).data
      = "https://github.com/".data ++ (o ++ '/' :: t) from rfl]
  rw [pyStrip_eq_self _ hsp]
  rw [show "https://github.com/".data
      = 'h' :: 't' :: 't' :: 'p' :: 's' :: ':' :: '/' :: '/' :: 'g' :: 'i' :: 't' :: 'h' ::
        'u' :: 'b' :: '.' :: 'c' :: 'o' :: 'm' :: '/' :: []
      from rfl]
  simp only [List.cons_append, List.nil_append]
  rw [searchGithub_cons_ne 'h' _ (by decide)]
  rw [searchGithub_cons_ne 't' _ (by decide)]
  rw [searchGithub_cons_ne 't' _ (by decide)]
  rw [searchGithub_cons_ne 'p' _ (by decide)]
  rw [searchGithub_cons_ne 's' _ (by decide)]
  rw [searchGithub_cons_ne ':' _ (by decide)]
  rw [searchGithub_cons_ne '/' _ (by decide)]
  rw [searchGithub_cons_ne '/' _ (by decide)]
  rw [searchGithub_marker _ _ (ownerTail_of_parseTail o t n ho1 hoS ht)]

/-- Claim C3 amended: after whitespace trimming, the full-URL form must
contain the literal host marker `github.com/` and then `owner/name` with
an optional `.git` suffix and an optional trailing slash — each
combination of the two options is stripped, returning exactly the owner
and name substrings (a name that itself ends in `.git` is read as
carrying the suffix, hence the hypothesis `stripDotGit n = n`); the bare
shorthand must be exactly `owner/name` (exactly one `/`, no trailing
slash, a `.git` suffix stays part of the name).  The final conjunct is
the converse: every successful parse exhibits one of the two recognized
shapes in the trimmed input, so any other string yields the not-found
pair (by `C10_parse_result_shape` no third kind of result exists). -/
theorem C3_amended_url_forms (o n : List Char)
    (ho : o ≠ [] ∧ ∀ c ∈ o, notSlash c = true ∧ isPySpace c = false)
    (hn : n ≠ [] ∧ ∀ c ∈ n, notSlash c = true ∧ isPySpace c = false)
    (hng : stripDotGit n = n) :
    parse_github_url ⟨"https://github.com/".data ++ (o ++ '/' :: n)⟩
      = (some ⟨o⟩, some ⟨n⟩)
    ∧ parse_github_url ⟨"https://github.com/".data ++ (o ++ '/' :: (n ++ ".git".data))⟩
      = (some ⟨o⟩, some ⟨n⟩)
    ∧ parse_github_url ⟨"https://github.com/".data ++ (o ++ '/' :: (n ++ "/".data))⟩
      = (some ⟨o⟩, some ⟨n⟩)
    ∧ parse_github_url ⟨"https://github.com/".data ++ (o ++ '/' :: (n ++ ".git/".data))⟩
      = (some ⟨o⟩, some ⟨n⟩)
    ∧ parse_github_url ⟨o ++ '/' :: n⟩ = (some ⟨o⟩, some ⟨n⟩)
    ∧ (∀ (url : String) (ow nm : String), parse_github_url url = (some ow, some nm) →
        (∃ pre w s, pyStrip url.data = pre ++ (ghMarker ++ (ow.data ++ '/' :: (w ++ s)))
          ∧ (s = [] ∨ s = ['/']) ∧ w ≠ [] ∧ (∀ c ∈ w, notSlash c = true)
          ∧ ow.data ≠ [] ∧ (∀ c ∈ ow.data, notSlash c = true)
          ∧ nm.data = stripDotGit w)
        ∨ pyStrip url.data = ow.data ++ '/' :: nm.data) := by
  obtain ⟨ho1, ho2⟩ := ho
  obtain ⟨hn1, hn2⟩ := hn
  have hoS : ∀ c ∈ o, notSlash c = true := fun c hc => (ho2 c hc).1
  have hoW : ∀ c ∈ o, isPySpace c = false := fun c hc => (ho2 c hc).2
  have hnS : ∀ c ∈ n, notSlash c = true := fun c hc => (hn2 c hc).1
  have hnW : ∀ c ∈ n, isPySpace c = false := fun c hc => (hn2 c hc).2
  have happ : ∀ a b : List Char, (∀ c ∈ a, isPySpace c = false) →
      (∀ c ∈ b, isPySpace c = false) → ∀ c ∈ a ++ b, isPySpace c = false := by
    intro a b ha hb c hc
    rcases List.mem_append.mp hc with hc | hc
    · exact ha c hc
    · exact hb c hc
  have hlitW : ∀ c ∈ "https://github.com/".data, isPySpace c = false := by decide
  have hgitW : ∀ c ∈ ".git".data, isPySpace c = false := by decide
  have hgitsW : ∀ c ∈ ".git/".data, isPySpace c = false := by decide
  have hslW : ∀ c ∈ ("/".data : List Char), isPySpace c = false := by decide
  have hconsW : ∀ t : List Char, (∀ c ∈ t, isPySpace c = false) →
      ∀ c ∈ ('/' :: t), isPySpace c = false := by
    intro t htW c hc
    rcases List.mem_cons.mp hc with hc | hc
    · subst hc; decide
    · exact htW c hc
  have hspOf : ∀ t : List Char, (∀ c ∈ t, isPySpace c = false) →
      ∀ c ∈ ("https://github.com/".data ++ (o ++ '/' :: t)), isPySpace c = false :=
    fun t htW => happ _ _ hlitW (happ _ _ hoW (hconsW t htW))
  refine ⟨?_, ?_, ?_, ?_, ?_, ?_⟩
  · have hpt : parseTail n = some n := by
      rw [parseTail_plain n hn1 hnS, hng]
    exact parse_gh_of_tail o n n ho1 hoS (hspOf n hnW) hpt
  · exact parse_gh_of_tail o (n ++ ".git".data) n ho1 hoS
      (hspOf _ (happ _ _ hnW hgitW)) (parseTail_git n hn1 hnS)
  · have hpt : parseTail (n ++ "/".data) = some n := by
      rw [show ("/".data : List Char) = ['/'] from rfl, parseTail_slash n hn1 hnS, hng]
    exact parse_gh_of_tail o (n ++ "/".data) n ho1 hoS
      (hspOf _ (happ _ _ hnW hslW)) hpt
  · exact parse_gh_of_tail o (n ++ ".git/".data) n ho1 hoS
      (hspOf _ (happ _ _ hnW hgitsW)) (parseTail_git_slash n hn1 hnS)
  · have hsp2 : ∀ c ∈ (o ++ '/' :: n), isPySpace c = false := by
      intro c hc
      rcases List.mem_append.mp hc with hc | hc
      · exact (ho2 c hc).2
      · rcases List.mem_cons.mp hc with hc | hc
        · subst hc; decide
        · exact (hn2 c hc).2
    have hco : o.count '/' = 0 := List.count_eq_zero.mpr fun hmem => by
      have hx := hoS '/' hmem
      simp [notSlash] at hx
    have hcn : n.count '/' = 0 := List.count_eq_zero.mpr fun hmem => by
      have hx := hnS '/' hmem
      simp [notSlash] at hx
    have hcount : (o ++ '/' :: n).count '/' ≤ 1 := by
      rw [List.count_append, List.count_cons]
      simp [hco, hcn]
    unfold parse_github_url
    dsimp only
    rw [pyStrip_eq_self _ hsp2]
    rw [searchGithub_le_one_slash _ hcount]
    rw [bareMatch_pair o n ho1 hoS hn1 hnS]
  · exact fun url ow nm h => parse_some_inv url ow nm h

/-- Witness for C3 amended at owner `acme`, name `widgets`: the plain
URL form, the `.git`-only, slash-only and `.git/` forms, and the bare
shorthand all parse to `("acme", "widgets")`. -/
theorem C3_amended_url_forms_witness :
    parse_github_url ⟨"https://github.com/".data ++ ("acme".data ++ '/' :: "widgets".data)⟩
      = (some "acme", some "widgets")
    ∧ parse_github_url
        ⟨"https://github.com/".data ++ ("acme".data ++ '/' :: ("widgets".data ++ ".git".data))⟩
      = (some "acme", some "widgets")
    ∧ parse_github_url
        ⟨"https://github.com/".data ++ ("acme".data ++ '/' :: ("widgets".data ++ "/".data))⟩
      = (some "acme", some "widgets")
    ∧ parse_github_url
        ⟨"https://github.com/".data ++ ("acme".data ++ '/' :: ("widgets".data ++ ".git/".data))⟩
      = (some "acme", some "widgets")
    ∧ parse_github_url ⟨"acme".data ++ '/' :: "widgets".data⟩ = (some "acme", some "widgets") := by
  have h := C3_amended_url_forms "acme".data "widgets".data (by decide) (by decide) (by decide)
  exact ⟨h.1, h.2.1, h.2.2.1, h.2.2.2.1, h.2.2.2.2.1⟩

/-- Claim C10 (confirmed): `parse_github_url` never returns a pair with
exactly one `None` component or an empty-string component: the result is
either `(None, None)` or two non-empty strings containing no `/`; hence
the caller's truthiness check `not owner or not repo` passes exactly when
parsing succeeded. -/
theorem C10_parse_result_shape (url : String) :
    (parse_github_url url = (none, none)
      ∨ ∃ o n : String, parse_github_url url = (some o, some n)
          ∧ o ≠ "" ∧ n ≠ "" ∧ (∀ c ∈ o.data, c ≠ '/') ∧ (∀ c ∈ n.data, c ≠ '/'))
    ∧ (parsedOk url = true ↔ parse_github_url url ≠ (none, none)) := by
  have main : parse_github_url url = (none, none)
      ∨ ∃ o n : String, parse_github_url url = (some o, some n)
          ∧ o ≠ "" ∧ n ≠ "" ∧ (∀ c ∈ o.data, c ≠ '/') ∧ (∀ c ∈ n.data, c ≠ '/') := by
    unfold parse_github_url
    dsimp only
    cases hs : searchGithub (pyStrip url.data) with
    | some r =>
      obtain ⟨o, n⟩ := r
      obtain ⟨⟨ho1, ho2⟩, hn1, hn2⟩ := searchGithub_shape _ o n hs
      right
      refine ⟨⟨o⟩, ⟨n⟩, rfl, ?_, ?_, ?_, ?_⟩
      · intro hEq; exact ho1 (congrArg String.data hEq)
      · intro hEq; exact hn1 (congrArg String.data hEq)
      · intro c hc hceq
        have hx := ho2 c hc
        rw [hceq] at hx
        simp [notSlash] at hx
      · intro c hc hceq
        have hx := hn2 c hc
        rw [hceq] at hx
        simp [notSlash] at hx
    | none =>
      cases hb : bareMatch (pyStrip url.data) with
      | some r =>
        obtain ⟨o, n⟩ := r
        obtain ⟨⟨ho1, ho2⟩, hn1, hn2⟩ := bareMatch_shape _ o n hb
        right
        refine ⟨⟨o⟩, ⟨n⟩, rfl, ?_, ?_, ?_, ?_⟩
        · intro hEq; exact ho1 (congrArg String.data hEq)
        · intro hEq; exact hn1 (congrArg String.data hEq)
        · intro c hc hceq
          have hx := ho2 c hc
          rw [hceq] at hx
          simp [notSlash] at hx
        · intro c hc hceq
          have hx := hn2 c hc
          rw [hceq] at hx
          simp [notSlash] at hx
      | none => left; rfl
  refine ⟨main, ?_⟩
  rcases main with h | ⟨o, n, h, ho, hn, _, _⟩
  · simp [parsedOk, truthyOpt, h]
  · simp [parsedOk, truthyOpt, h, ho, hn]

/-- Witness for C10 at the concrete reference `acme/widgets`. -/
theorem C10_parse_result_shape_witness :
    parsedOk "acme/widgets" = true ↔ parse_github_url "acme/widgets" ≠ (none, none) := by
  exact (C10_parse_result_shape "acme/widgets").2

/-- Claim C7 (confirmed): the workspace reaper `safe_rmtree` is safe on
absent paths and idempotent: called on a non-existent path it is a pure
no-op reporting success on the first loop iteration (no `git gc`, no
sleep, state unchanged), and whenever one call reports success — in
particular after removal, when the path no longer exists — an immediately
following call on the same path also reports success, under any
environment behaviour for the second call. -/
theorem C7_reaper_idempotent (env1 env2 : RmEnv) (st : DirSt) :
    (st.pExists = false → safe_rmtree env1 st = ⟨true, st, 1, 0⟩)
    ∧ ((safe_rmtree env1 st).ok = true →
        (safe_rmtree env2 (safe_rmtree env1 st).st).ok = true) := by
  constructor
  · intro h
    simp [safe_rmtree, rmLoop, rmAttempt, h]
  · intro h
    have hp := rmLoop_ok_pExists env1 3 [0, 1, 2] st h
    simp [safe_rmtree, rmLoop, rmAttempt] at hp ⊢
    simp [hp]

/-- Witness for C7: on an absent path with a benign environment, two
successive calls both report success. -/
theorem C7_reaper_idempotent_witness :
    safe_rmtree ⟨fun _ => false, fun _ => false⟩ ⟨false, false⟩ = ⟨true, ⟨false, false⟩, 1, 0⟩
    ∧ (safe_rmtree ⟨fun _ => false, fun _ => false⟩
        (safe_rmtree ⟨fun _ => false, fun _ => false⟩ ⟨false, false⟩).st).ok = true := by
  have h := C7_reaper_idempotent ⟨fun _ => false, fun _ => false⟩
    ⟨fun _ => false, fun _ => false⟩ ⟨false, false⟩
  exact ⟨h.1 rfl, h.2 (by rw [h.1 rfl])⟩

/-- Claim C8 (confirmed): `safe_rmtree` executes at most 3 loop
iterations with a 1-time-unit sleep between failed attempts (so at most
2 sleeps); when every attempt raises it returns the non-fatal `False`
after exactly 3 attempts and 2 sleeps instead of propagating an
exception, and on success the number of sleeps is exactly the number of
preceding failed attempts.  Exceptions — including those of the
best-effort `git gc` lock-release step, whose timeout raises inside the
`try` — are absorbed by the `except` clause: the embedding's attempt
bodies are `Except`-valued while `safe_rmtree` itself is total with a
plain boolean result. -/
theorem C8_reaper_retry_policy (env : RmEnv) (st : DirSt) :
    (safe_rmtree env st).attempts ≤ 3
    ∧ (safe_rmtree env st).sleeps ≤ 2
    ∧ ((safe_rmtree env st).ok = false →
        (safe_rmtree env st).attempts = 3 ∧ (safe_rmtree env st).sleeps = 2)
    ∧ ((safe_rmtree env st).ok = true →
        (safe_rmtree env st).sleeps + 1 = (safe_rmtree env st).attempts) := by
  unfold safe_rmtree
  cases h0 : rmAttempt env 0 st with
  | ok s0 => simp [rmLoop, h0]
  | error u0 =>
    cases h1 : rmAttempt env 1 st with
    | ok s1 => simp [rmLoop, h0, h1]
    | error u1 =>
      cases h2 : rmAttempt env 2 st with
      | ok s2 => simp [rmLoop, h0, h1, h2]
      | error u2 => simp [rmLoop, h0, h1, h2]

/-- Witness for C8: with `shutil.rmtree` failing on every attempt on an
existing path, the call returns after exactly 3 attempts and 2 sleeps. -/
theorem C8_reaper_retry_policy_witness :
    (safe_rmtree ⟨fun _ => false, fun _ => true⟩ ⟨true, false⟩).attempts = 3
    ∧ (safe_rmtree ⟨fun _ => false, fun _ => true⟩ ⟨true, false⟩).sleeps = 2 := by
  have h := C8_reaper_retry_policy ⟨fun _ => false, fun _ => true⟩ ⟨true, false⟩
  exact h.2.2.1 rfl

/-- Claim C9 counterexample (claim as stated is false): the claim covers
the instruction built for `analysisKind = "diagram"` in both variants,
but the basic variant's diagram instruction (for the concrete
owner/name `acme`/`widgets`) contains neither the no-line-breaks
constraint line nor any incorrect (`WRONG example`) worked example. -/
theorem C9_counterexample :
    strContains (analysis_prompts_diagram_basic "acme" "widgets")
      "- Do NOT put newlines inside square brackets []" = false
    ∧ strContains (analysis_prompts_diagram_basic "acme" "widgets") "WRONG example" = false := by
  decide

/-- Claim C9 amended: in the advanced variant, the diagram instruction
contains the fixed constraint block (single-line node declarations,
short labels, no literal line breaks inside label brackets) verbatim,
together with a worked correct example and a worked incorrect example,
for every interpolated owner, repo and workspace path; the basic
variant's diagram instruction has only the format skeleton, without the
constraint block or the incorrect example (see the counterexample). -/
theorem C9_amended_diagram_instruction (owner repo repo_path : String) :
    strContains (analysis_prompts_diagram owner repo repo_path) mermaidRules = true
    ∧ strContains (analysis_prompts_diagram owner repo repo_path) "CORRECT example:" = true
    ∧ strContains (analysis_prompts_diagram owner repo repo_path)
        "WRONG example (DO NOT DO THIS):" = true := by
  refine ⟨?_, ?_, ?_⟩ <;>
  · unfold strContains analysis_prompts_diagram
    simp only [strData_append, List.append_assoc]
    apply listContains_append_right
    apply listContains_append_right
    apply listContains_append_right
    apply listContains_append_right
    apply listContains_append_right
    apply listContains_append_right
    apply listContains_append_left
    decide

/-- Witness for C9 amended at owner `acme`, name `widgets`, path
`temp_repos/widgets`. -/
theorem C9_amended_diagram_instruction_witness :
    strContains (analysis_prompts_diagram "acme" "widgets" "temp_repos/widgets") mermaidRules = true
    ∧ strContains (analysis_prompts_diagram "acme" "widgets" "temp_repos/widgets")
        "WRONG example (DO NOT DO THIS):" = true := by
  have h := C9_amended_diagram_instruction "acme" "widgets" "temp_repos/widgets"
  exact ⟨h.1, h.2.2⟩

/-- Claim C1 counterexample (claim as stated is false): in the basic
variant there is no `try`/`finally`, so on the exit path where
`session.send` raises, the exception propagates and neither
`session.destroy()` nor `client.stop()` executes. -/
theorem C1_counterexample :
    (appOrchestrate ⟨true, false⟩).2 = true
    ∧ Act.destroySession ∉ (appOrchestrate ⟨true, false⟩).1
    ∧ Act.stopClient ∉ (appOrchestrate ⟨true, false⟩).1 := by decide

/-- Claim C1 amended: only the advanced variant guarantees the teardown
sequence on every exit path: its trace always ends with
`destroy session; stop client; cleanup_repo` (the workspace reaper),
whether or not `send`/`wait` raise, and the exception is then re-raised;
the basic variant runs `destroy; stop` (it binds no workspace) only on
the normal exit path and skips teardown entirely whenever `send` or
`wait` raises. -/
theorem C1_amended_teardown (env : OrcEnv) :
    [Act.destroySession, Act.stopClient, Act.cleanupRepo] <:+ (advOrchestrate env).1
    ∧ (advOrchestrate env).2 = (env.sendRaises || env.waitRaises)
    ∧ ((appOrchestrate env).2 = false →
        (appOrchestrate env).1 = [Act.send, Act.waitDone, Act.destroySession, Act.stopClient])
    ∧ ((appOrchestrate env).2 = true →
        Act.destroySession ∉ (appOrchestrate env).1 ∧ Act.stopClient ∉ (appOrchestrate env).1) := by
  obtain ⟨s, w⟩ := env
  cases s <;> cases w <;> decide

/-- Witness for C1 amended: with `send` raising, the advanced variant
still performs the full teardown suffix while the basic variant skips
`destroy`. -/
theorem C1_amended_teardown_witness :
    [Act.destroySession, Act.stopClient, Act.cleanupRepo] <:+ (advOrchestrate ⟨true, false⟩).1
    ∧ Act.destroySession ∉ (appOrchestrate ⟨true, false⟩).1 := by
  have h := C1_amended_teardown ⟨true, false⟩
  exact ⟨h.1, (h.2.2.2 rfl).1⟩

/-- Claim C4 (confirmed): `clone_repo` raises a clone-failure error
carrying the captured diagnostic text iff the target directory does not
exist after the clone attempt; when the directory exists the call
succeeds and returns the workspace path, attempting the best-effort
`git restore` beforehand exactly when the clone stderr reports a
checkout failure (case-insensitively). -/
theorem C4_clone_success_iff (env : CloneEnv) (owner repo : String) :
    (env.existsAfter = false →
      clone_repo env owner repo = Except.error ("Failed to clone repository: " ++ env.stderr))
    ∧ (env.existsAfter = true →
      clone_repo env owner repo =
        Except.ok ⟨TEMP_REPOS_DIR ++ "/" ++ strTake 20 repo,
          strContains (lowerStr env.stderr) "checkout failed", env.preExisting⟩)
    ∧ ((∃ msg, clone_repo env owner repo = Except.error msg) ↔ env.existsAfter = false) := by
  refine ⟨?_, ?_, ?_, ?_⟩
  · intro h
    simp [clone_repo, h]
  · intro h
    rcases Bool.eq_false_or_eq_true (strContains (lowerStr env.stderr) "checkout failed") with hs | hs <;>
      simp [clone_repo, h, hs]
  · intro hmsg
    rcases Bool.eq_false_or_eq_true env.existsAfter with h | h
    · exfalso
      rcases hmsg with ⟨msg, hm⟩
      rcases Bool.eq_false_or_eq_true (strContains (lowerStr env.stderr) "checkout failed") with hs | hs <;>
        simp [clone_repo, h, hs] at hm
    · exact h
  · intro h
    exact ⟨"Failed to clone repository: " ++ env.stderr, by simp [clone_repo, h]⟩

/-- Witness for C4: a clone that leaves no directory raises with the
diagnostic text; a clone whose stderr mentions `Checkout failed` but
whose directory exists returns the path with the restore attempted. -/
theorem C4_clone_success_iff_witness :
    clone_repo ⟨false, false, "boom"⟩ "acme" "widgets" =
      Except.error "Failed to clone repository: boom"
    ∧ clone_repo ⟨true, true, "error: Checkout failed for 3 files"⟩ "acme" "widgets" =
      Except.ok ⟨"temp_repos/widgets", true, true⟩ := by
  have h1 := C4_clone_success_iff ⟨false, false, "boom"⟩ "acme" "widgets"
  have h2 := C4_clone_success_iff ⟨true, true, "error: Checkout failed for 3 files"⟩ "acme" "widgets"
  exact ⟨h1.1 rfl, (h2.2.1 rfl).trans (by rfl)⟩

/-- The invalid-reference guard of both `analyze_github_repo` variants is
the negation of `parsedOk`. -/
theorem analyzeGuard_eq (url : String) :
    (!truthyOpt (parse_github_url url).1 || !truthyOpt (parse_github_url url).2)
      = !(parsedOk url) := by
  simp [parsedOk]

/-- Claim C5 counterexample (claim as stated is false): the ordered event
log does not record every received event.  With two received
`session.idle` events the log stays empty (idle events, final messages,
empty deltas and unknown kinds are never appended to `events_log`). -/
theorem C5_counterexample :
    (processEvents initHState [Ev.sessionIdle, Ev.sessionIdle]).events_log = []
    ∧ [Ev.sessionIdle, Ev.sessionIdle].length = 2 := by decide

/-- Claim C5 amended: across any received event sequence the completion
signal's value changes at most once (exactly once as soon as at least one
`session.idle` event arrives — repeated `done.set()` calls are
idempotent), its final value is set iff some idle event was received, and
the ordered event log records exactly the nonempty message deltas and the
tool start/complete events, over the whole sequence, including events
arriving after the first idle event; final assistant messages go to the
response accumulator instead of the log. -/
theorem C5_amended_signal_and_log (es : List Ev) :
    doneFlips initHState es ≤ 1
    ∧ (es.any isIdle = true → doneFlips initHState es = 1)
    ∧ (processEvents initHState es).done = es.any isIdle
    ∧ (processEvents initHState es).events_log = es.filterMap logOf
    ∧ (processEvents initHState es).response_content = es.filterMap msgOf := by
  refine ⟨?_, ?_, ?_, ?_, ?_⟩
  · rw [doneFlips_closed]
    split
    · exact Nat.zero_le 1
    · split
      · exact Nat.le_refl 1
      · exact Nat.zero_le 1
  · intro h
    rw [doneFlips_closed]
    simp [initHState, h]
  · rw [processEvents_done]
    simp [initHState]
  · rw [processEvents_log]
    simp [initHState]
  · rw [processEvents_rc]
    simp [initHState]

/-- Witness for C5 amended: a run with two idle events and one tool event
flips the signal once and logs exactly the tool event — including the one
arriving after the first idle. -/
theorem C5_amended_signal_and_log_witness :
    doneFlips initHState [Ev.sessionIdle, Ev.toolStart "read_file" none none, Ev.sessionIdle] = 1
    ∧ (processEvents initHState [Ev.sessionIdle, Ev.toolStart "read_file" none none, Ev.sessionIdle]).events_log
        = [LogRecord.toolStart "read_file" none] := by
  have h := C5_amended_signal_and_log [Ev.sessionIdle, Ev.toolStart "read_file" none none, Ev.sessionIdle]
  exact ⟨h.2.1 (by decide), h.2.2.2.1.trans (by decide)⟩

/-- Claim C6 (confirmed): in both variants, a completed run (successful
parse and clone, no engine exception) returns `response` equal to the
newline-separated join, in arrival order, of all received final-message
fragments, or the fixed placeholder `No response received.` when no
final-message fragment was received. -/
theorem C6_responseText (env : EngEnv) (cl : CloneEnv) (url ty : String)
    (hp : parsedOk url = true) (hr : engineRaises env = false)
    (hc : cl.existsAfter = true) :
    (∃ obj : JsonObj, appAnalyze env url ty = Except.ok obj ∧
      obj.response = some (if env.events.filterMap msgOf = [] then "No response received."
        else String.intercalate "\n" (env.events.filterMap msgOf)))
    ∧ (∃ obj : JsonObj, advAnalyze ⟨cl, env⟩ url ty = Except.ok obj ∧
      obj.response = some (if env.events.filterMap msgOf = [] then "No response received."
        else String.intercalate "\n" (env.events.filterMap msgOf))) := by
  simp [engineRaises] at hr
  obtain ⟨⟨⟨h1, h2⟩, h3⟩, h4⟩ := hr
  constructor
  · refine ⟨{ response := some (buildResponse (processEvents initHState env.events).response_content),
              events := some (processEvents initHState env.events).events_log,
              owner := (parse_github_url url).1, repo := (parse_github_url url).2 }, ?_, ?_⟩
    · simp only [appAnalyze, analyzeGuard_eq, hp, h1, h2, h3, h4]
      simp
    · show some (buildResponse (processEvents initHState env.events).response_content) = _
      rw [processEvents_rc]
      simp [initHState, buildResponse]
  · refine ⟨{ response := some (buildResponse (processEvents initHState env.events).response_content),
              events := some (processEvents initHState env.events).events_log,
              owner := (parse_github_url url).1, repo := (parse_github_url url).2 }, ?_, ?_⟩
    · rcases Bool.eq_false_or_eq_true (strContains (lowerStr cl.stderr) "checkout failed") with hs | hs <;>
      · simp only [advAnalyze, analyzeGuard_eq, hp, h1, h2, h3, h4, clone_repo, hc, hs]
        simp
    · show some (buildResponse (processEvents initHState env.events).response_content) = _
      rw [processEvents_rc]
      simp [initHState, buildResponse]

/-- Witness for C6: a run receiving two final-message fragments around an
idle event returns their newline join. -/
theorem C6_responseText_witness :
    ∃ obj : JsonObj,
      appAnalyze ⟨false, false, false, false, "",
          [Ev.assistantMessage "A", Ev.sessionIdle, Ev.assistantMessage "B"]⟩
        "acme/widgets" "overview" = Except.ok obj
      ∧ obj.response = some "A\nB" := by
  have h := C6_responseText
    ⟨false, false, false, false, "",
      [Ev.assistantMessage "A", Ev.sessionIdle, Ev.assistantMessage "B"]⟩
    ⟨false, true, ""⟩ "acme/widgets" "overview" (by decide) rfl rfl
  obtain ⟨⟨obj, ho, hrsp⟩, h2⟩ := h
  refine ⟨obj, ho, ?_⟩
  rw [hrsp]
  rfl

/-- Claim C2 counterexample (claim as stated is false): the unparsable
reference `not a url` is a failing request, yet the value returned across
the HTTP boundary is a success-shaped 200 payload with no `error` field —
the failure text rides in the `response` field. -/
theorem C2_counterexample :
    (analyzeRoute ⟨false, false, false, false, "", []⟩ "not a url" "overview").1.error = none
    ∧ (analyzeRoute ⟨false, false, false, false, "", []⟩ "not a url" "overview").2 = 200
    ∧ (analyzeRoute ⟨false, false, false, false, "", []⟩ "not a url" "overview").1.response
        = some "Invalid GitHub URL. Please use format: https://github.com/owner/repo" := by
  decide

/-- Claim C2 amended: only a missing/empty `repo_url` (400) and an
engine/session exception (500) produce the `{error: ...}` payload with a
non-2xx status; an unparsable reference is returned (in both variants) as
a 200 success-shaped payload carrying the invalid-URL message in
`response` with empty `events` and no `error` field, and in the advanced
variant a clone failure is likewise returned as a 200 payload whose
`response` wraps the (doubled) clone-failure text, with no `error`
field. -/
theorem C2_amended_error_surface (env : EngEnv) (adv : AdvEnv) (url ty : String) :
    (url = "" → analyzeRoute env url ty = ({ error := some "Repository URL is required" }, 400))
    ∧ (url ≠ "" → parsedOk url = false → analyzeRoute env url ty = (invalidUrlResp, 200))
    ∧ (url ≠ "" → parsedOk url = true → engineRaises env = true →
        analyzeRoute env url ty = ({ error := some env.failMsg }, 500))
    ∧ (url ≠ "" → parsedOk url = false → advAnalyzeRoute adv url ty = (invalidUrlResp, 200))
    ∧ (url ≠ "" → parsedOk url = true → adv.clone.existsAfter = false →
        advAnalyzeRoute adv url ty =
          ({ response := some ("Failed to clone repository: "
              ++ ("Failed to clone repository: " ++ adv.clone.stderr)),
             events := some [] }, 200)) := by
  refine ⟨?_, ?_, ?_, ?_, ?_⟩
  · intro h
    simp [analyzeRoute, h]
  · intro h hp
    simp [analyzeRoute, h, appAnalyze, analyzeGuard_eq, hp]
  · intro h hp hr
    rcases Bool.eq_false_or_eq_true env.startRaises with h1 | h1
    · simp [analyzeRoute, h, appAnalyze, analyzeGuard_eq, hp, h1]
    · rcases Bool.eq_false_or_eq_true env.createRaises with h2 | h2
      · simp [analyzeRoute, h, appAnalyze, analyzeGuard_eq, hp, h1, h2]
      · rcases Bool.eq_false_or_eq_true env.sendRaises with h3 | h3
        · simp [analyzeRoute, h, appAnalyze, analyzeGuard_eq, hp, h1, h2, h3]
        · rcases Bool.eq_false_or_eq_true env.waitRaises with h4 | h4
          · simp [analyzeRoute, h, appAnalyze, analyzeGuard_eq, hp, h1, h2, h3, h4]
          · exfalso
            simp [engineRaises, h1, h2, h3, h4] at hr
  · intro h hp
    simp [advAnalyzeRoute, h, advAnalyze, analyzeGuard_eq, hp]
  · intro h hp hc
    simp [advAnalyzeRoute, h, advAnalyze, analyzeGuard_eq, hp, clone_repo, hc]

/-- Witness for C2 amended: an empty reference yields the 400 error
payload; an engine failure on a parsable reference yields the 500 error
payload. -/
theorem C2_amended_error_surface_witness :
    analyzeRoute ⟨false, false, false, false, "", []⟩ "" "overview"
      = ({ error := some "Repository URL is required" }, 400)
    ∧ analyzeRoute ⟨true, false, false, false, "engine down", []⟩ "acme/widgets" "overview"
      = ({ error := some "engine down" }, 500) := by
  have h1 := C2_amended_error_surface ⟨false, false, false, false, "", []⟩
    ⟨⟨false, true, ""⟩, ⟨false, false, false, false, "", []⟩⟩ "" "overview"
  have h2 := C2_amended_error_surface ⟨true, false, false, false, "engine down", []⟩
    ⟨⟨false, true, ""⟩, ⟨false, false, false, false, "", []⟩⟩ "acme/widgets" "overview"
  exact ⟨h1.1 rfl, h2.2.2.1 (by decide) (by decide) rfl⟩

/-! ## Sanity checks on concrete inputs -/

example : parse_github_url "https://github.com/acme/widgets.git/" = (some "acme", some "widgets") := by decide
example : parse_github_url "not a url" = (none, none) := by decide
example : parse_github_url "acme/widgets" = (some "acme", some "widgets") := by decide
example : parse_github_url " acme/widgets\n" = (some "acme", some "widgets") := by decide
example : parse_github_url "acme/widgets/" = (none, none) := by decide
example : parse_github_url "acme/widgets.git" = (some "acme", some "widgets.git") := by decide
example : parse_github_url "https://gitlab.com/acme/widgets" = (none, none) := by decide
example : parse_github_url "github.com/a/.git" = (some "a", some ".git") := by decide
example : parse_github_url "github.com/a/b.git.git" = (some "a", some "b.git") := by decide

example :
    processEvents initHState
      [Ev.toolStart "read_file" (some "c1") none, Ev.sessionIdle,
       Ev.assistantMessage "hi", Ev.messageDelta (some "x")] =
    ⟨true, ["hi"], [LogRecord.toolStart "read_file" (some "c1"), LogRecord.delta "x"]⟩ := by decide

example :
    clone_repo ⟨false, true, "warning: Checkout Failed at xyz"⟩ "acme" "averylongrepositoryname" =
    Except.ok ⟨"temp_repos/averylongrepositoryn", true, false⟩ := by rfl
example :
    clone_repo ⟨false, false, "fatal: repository not found"⟩ "acme" "w" =
    Except.error "Failed to clone repository: fatal: repository not found" := by rfl
